import Mathlib

/-!
Verification of the truss geometry model of `Truss_stem_solved.py`.

The Python source is shallowly embedded: Python floats become real numbers,
Python `None` becomes `Option.none`, code that can raise an uncaught exception
is modelled in `Except`/`Option`, and the two library routines whose exact
behavior is irrelevant to the properties below — `float()` string parsing and
`'{:0.2f}'` numeric formatting — are abstracted as parameters (`p` and `fmt`).
String handling (Python `strip`, `lower`, `split(',')`, `startswith('#')`,
`strip("'")`) is implemented structurally over character lists so that every
definition evaluates on concrete input.
-/

/-- Embeds the class `Position`: a point in 3D space with real coordinates
(Python floats are modelled as reals). -/
structure Position where
  x : ℝ
  y : ℝ
  z : ℝ

/-- Embeds `Position.__add__`: component-wise sum. -/
def Position.add (a b : Position) : Position :=
  ⟨a.x + b.x, a.y + b.y, a.z + b.z⟩

/-- Embeds `Position.__sub__`: component-wise difference. -/
def Position.sub (a b : Position) : Position :=
  ⟨a.x - b.x, a.y - b.y, a.z - b.z⟩

/-- Embeds `Position.mag`: `(x**2 + y**2 + z**2)**0.5`, the Euclidean norm. -/
noncomputable def Position.mag (v : Position) : ℝ :=
  Real.sqrt (v.x ^ 2 + v.y ^ 2 + v.z ^ 2)

/-- Embeds `Position.normalize`: a no-op when `mag <= 0`, otherwise the
in-place `__idiv__` by the magnitude, returned as the new value. -/
noncomputable def Position.normalize (v : Position) : Position :=
  if v.mag ≤ 0 then v else ⟨v.x / v.mag, v.y / v.mag, v.z / v.mag⟩

/-- Embeds `Position.getAngleRad`: `0` when `mag <= 0`, `acos(x/l)` when
`y >= 0`, and `2*pi - acos(x/l)` when `y < 0`. -/
noncomputable def Position.getAngleRad (v : Position) : ℝ :=
  if v.mag ≤ 0 then 0
  else if 0 ≤ v.y then Real.arccos (v.x / v.mag)
  else 2 * Real.pi - Real.arccos (v.x / v.mag)

lemma Position.mag_nonneg (v : Position) : 0 ≤ v.mag :=
  Real.sqrt_nonneg _

lemma Position.sumSq_nonneg (v : Position) : 0 ≤ v.x ^ 2 + v.y ^ 2 + v.z ^ 2 := by
  positivity

lemma Position.mag_eq_zero_iff (v : Position) : v.mag = 0 ↔ v = ⟨0, 0, 0⟩ := by
  unfold Position.mag
  constructor
  · intro h
    have hs : v.x ^ 2 + v.y ^ 2 + v.z ^ 2 = 0 := by
      have := Real.sqrt_eq_zero'.mp h
      have := v.sumSq_nonneg
      linarith
    have hx : v.x = 0 := by nlinarith [sq_nonneg v.x, sq_nonneg v.y, sq_nonneg v.z]
    have hy : v.y = 0 := by nlinarith [sq_nonneg v.x, sq_nonneg v.y, sq_nonneg v.z]
    have hz : v.z = 0 := by nlinarith [sq_nonneg v.x, sq_nonneg v.y, sq_nonneg v.z]
    cases v
    simp_all
  · intro h
    subst h
    simp [Real.sqrt_eq_zero']

lemma Position.mag_le_zero_iff (v : Position) : v.mag ≤ 0 ↔ v = ⟨0, 0, 0⟩ := by
  constructor
  · intro h
    exact v.mag_eq_zero_iff.mp (le_antisymm h v.mag_nonneg)
  · intro h
    exact le_of_eq (v.mag_eq_zero_iff.mpr h)

lemma Position.mag_pos_of_xy (v : Position) (h : v.x ≠ 0 ∨ v.y ≠ 0) : 0 < v.mag := by
  rcases lt_or_eq_of_le v.mag_nonneg with h' | h'
  · exact h'
  · exfalso
    have := v.mag_eq_zero_iff.mp h'.symm
    cases this
    rcases h with h | h <;> exact h rfl

/-- Claim C8: vector addition and subtraction are mutually inverse:
`subtract(add(a, b), b)` equals `a` component-wise. -/
theorem claim_C8_add_sub_inverse (a b : Position) :
    Position.sub (Position.add a b) b = a := by
  cases a
  cases b
  simp only [Position.add, Position.sub, Position.mk.injEq]
  refine ⟨by ring, by ring, by ring⟩

/-- Claim C7: `normalize` is total and guarded: when the magnitude is `≤ 0`
(equivalently, the vector is the zero vector) it returns its input unchanged,
and when the magnitude is positive the normalized vector has magnitude 1. -/
theorem claim_C7_normalize (v : Position) :
    (v.mag ≤ 0 → v.normalize = v) ∧
    (v.mag ≤ 0 ↔ v = ⟨0, 0, 0⟩) ∧
    (0 < v.mag → v.normalize.mag = 1) := by
  refine ⟨?_, v.mag_le_zero_iff, ?_⟩
  · intro h
    simp [Position.normalize, h]
  · intro h
    have hne : ¬ v.mag ≤ 0 := not_le.mpr h
    have hS : 0 < v.x ^ 2 + v.y ^ 2 + v.z ^ 2 := by
      have := Real.sqrt_pos.mp (by simpa [Position.mag] using h)
      exact this
    have hsq : v.mag ^ 2 = v.x ^ 2 + v.y ^ 2 + v.z ^ 2 :=
      Real.sq_sqrt (le_of_lt hS)
    rw [Position.normalize, if_neg hne]
    show Real.sqrt _ = 1
    have hmne : v.mag ≠ 0 := ne_of_gt h
    have : (v.x / v.mag) ^ 2 + (v.y / v.mag) ^ 2 + (v.z / v.mag) ^ 2 = 1 := by
      field_simp
      linarith [hsq]
    rw [this, Real.sqrt_one]

/-- Witness for C7 at the concrete vector (3, 4, 0). -/
theorem claim_C7_witness : (Position.normalize ⟨3, 4, 0⟩).mag = 1 := by
  apply (claim_C7_normalize ⟨3, 4, 0⟩).2.2
  show 0 < Position.mag _
  rw [Position.mag]
  apply Real.sqrt_pos.mpr
  norm_num

/-- Claim C2: the planar angle is 0 when the magnitude is `≤ 0`, equals
`acos(x/|v|)` when `y ≥ 0`, equals `2π - acos(x/|v|)` when `y < 0`; it lies in
`[0, 2π)` for every vector with non-zero (x, y) projection and is exactly 0 for
the zero vector. -/
theorem claim_C2_planar_angle (v : Position) :
    (v.mag ≤ 0 → v.getAngleRad = 0) ∧
    (0 < v.mag → 0 ≤ v.y → v.getAngleRad = Real.arccos (v.x / v.mag)) ∧
    (0 < v.mag → v.y < 0 → v.getAngleRad = 2 * Real.pi - Real.arccos (v.x / v.mag)) ∧
    ((v.x ≠ 0 ∨ v.y ≠ 0) → 0 ≤ v.getAngleRad ∧ v.getAngleRad < 2 * Real.pi) ∧
    (v = ⟨0, 0, 0⟩ → v.getAngleRad = 0) := by
  refine ⟨?_, ?_, ?_, ?_, ?_⟩
  · intro h
    simp [Position.getAngleRad, h]
  · intro h hy
    rw [Position.getAngleRad, if_neg (not_le.mpr h), if_pos hy]
  · intro h hy
    rw [Position.getAngleRad, if_neg (not_le.mpr h), if_neg (not_le.mpr hy)]
  · intro hxy
    have hm : 0 < v.mag := v.mag_pos_of_xy hxy
    have hpi := Real.pi_pos
    rw [Position.getAngleRad, if_neg (not_le.mpr hm)]
    by_cases hy : 0 ≤ v.y
    · rw [if_pos hy]
      constructor
      · exact Real.arccos_nonneg _
      · have := Real.arccos_le_pi (v.x / v.mag)
        linarith
    · rw [if_neg hy]
      have hyne : v.y ≠ 0 := fun h => hy (le_of_eq h.symm)
      have hxlt : v.x < v.mag := by
        have h1 : v.x ≤ |v.x| := le_abs_self _
        have h2 : |v.x| = Real.sqrt (v.x ^ 2) := (Real.sqrt_sq_eq_abs v.x).symm
        have h3 : Real.sqrt (v.x ^ 2) < Real.sqrt (v.x ^ 2 + v.y ^ 2 + v.z ^ 2) := by
          apply Real.sqrt_lt_sqrt (sq_nonneg _)
          have : 0 < v.y ^ 2 := by positivity
          nlinarith [sq_nonneg v.z]
        calc v.x ≤ |v.x| := h1
          _ = Real.sqrt (v.x ^ 2) := h2
          _ < Real.sqrt (v.x ^ 2 + v.y ^ 2 + v.z ^ 2) := h3
          _ = v.mag := rfl
      have hlt1 : v.x / v.mag < 1 := (div_lt_one hm).mpr hxlt
      have harc : 0 < Real.arccos (v.x / v.mag) := Real.arccos_pos.mpr hlt1
      have harcpi := Real.arccos_le_pi (v.x / v.mag)
      constructor
      · linarith
      · linarith
  · intro h
    have : v.mag ≤ 0 := v.mag_le_zero_iff.mpr h
    simp [Position.getAngleRad, this]

/-- Witness for C2 at the concrete vector (1, 1, 0). -/
theorem claim_C2_witness :
    0 ≤ Position.getAngleRad ⟨1, 1, 0⟩ ∧
    Position.getAngleRad ⟨1, 1, 0⟩ < 2 * Real.pi :=
  (claim_C2_planar_angle ⟨1, 1, 0⟩).2.2.2.1 (Or.inl one_ne_zero)

/-- Embeds the class `Material`: four scalars, each `None` until set. -/
structure Material where
  uts : Option ℝ
  ys : Option ℝ
  E : Option ℝ
  staticFactor : Option ℝ

/-- Embeds the class `Node`: a name and a position. -/
structure Node where
  name : String
  position : Position

/-- Embeds the class `Link`: a name, two node-name references, and derived
length and angle, `None` until the derivation pass runs. -/
structure Link where
  name : String
  node1_Name : String
  node2_Name : String
  length : Option ℝ
  angleRad : Option ℝ

/-- Embeds `Link.__init__`: it assigns `self.name = ""`, `self.length = None`
and `self.angleRad = None` unconditionally, so the `name`, `length` and
`angleRad` parameters are ignored; only `node1` and `node2` are stored. -/
def mkLink (name node1 node2 : String) (length angleRad : Option ℝ) : Link :=
  ⟨"", node1, node2, none, none⟩

/-- Embeds the class `TrussModel`. -/
structure TrussModel where
  title : Option String
  links : List Link
  nodes : List Node
  material : Material

/-- The model as built by `TrussModel.__init__` / `TrussController.__init__`. -/
def emptyTruss : TrussModel :=
  ⟨none, [], [], ⟨none, none, none, none⟩⟩

/-- Embeds `TrussController.hasNode`: scans the node list for a name match. -/
def hasNode (m : TrussModel) (name : String) : Bool :=
  m.nodes.any (fun n => n.name == name)

/-- Embeds `TrussController.getNode`: first node whose name matches, `None`
(modelled as `Option.none`) otherwise. -/
def getNode (m : TrussModel) (name : String) : Option Node :=
  m.nodes.find? (fun n => n.name == name)

/-- Embeds `TrussController.calcLinkVals`: for every link, resolve both node
names; when both resolve, set length and angle from the displacement
`node2.position - node1.position`; otherwise leave the link as it is. -/
noncomputable def calcLinkVals (m : TrussModel) : TrussModel :=
  { m with links := m.links.map (fun l =>
      let n1 : Option Node := if hasNode m l.node1_Name then getNode m l.node1_Name else none
      let n2 : Option Node := if hasNode m l.node2_Name then getNode m l.node2_Name else none
      match n1, n2 with
      | some a, some b =>
        let r := Position.sub b.position a.position
        { l with length := some r.mag, angleRad := some r.getAngleRad }
      | _, _ => l) }

/-- Python `str.strip()` on a character list. -/
def trimChars (cs : List Char) : List Char :=
  ((cs.dropWhile Char.isWhitespace).reverse.dropWhile Char.isWhitespace).reverse

/-- Python `str.strip()`. -/
def pyStrip (s : String) : String := String.mk (trimChars s.data)

/-- Helper for Python `str.split(',')`. -/
def splitCommaAux : List Char → List Char → List (List Char)
  | [], acc => [acc.reverse]
  | c :: cs, acc =>
    if c == ',' then acc.reverse :: splitCommaAux cs [] else splitCommaAux cs (c :: acc)

/-- Python `str.split(',')`. -/
def pySplit (s : String) : List String := (splitCommaAux s.data []).map String.mk

/-- Python `str.lower()`. -/
def pyLower (s : String) : String := String.mk (s.data.map Char.toLower)

/-- Python `str.startswith('#')`. -/
def startsHash (s : String) : Bool :=
  match s.data with
  | c :: _ => c == '#'
  | [] => false

/-- Python `str.strip("'")`: removes leading and trailing apostrophe
characters (character code 39). -/
def stripQuotes (s : String) : String :=
  String.mk (((s.data.dropWhile (· == Char.ofNat 39)).reverse.dropWhile (· == Char.ofNat 39)).reverse)

/-- The diagnostic printed by the `except ValueError` branch of
`TrussController.ImportFromFile` for one malformed line. -/
def parseDiag (line : String) : String :=
  "Data formatting error in line: " ++ line

/-- Embeds the body of the line-processing loop of
`TrussController.ImportFromFile` for one line, over a parameter
`p : String → Option ℝ` abstracting Python `float()` (`none` = `ValueError`).
The result is the updated model together with the diagnostics printed for this
line; an uncaught `IndexError` (a recognized directive with too few
comma-separated fields) is modelled as `Except.error` carrying the unchanged
model, which aborts the rest of the import. -/
def processLine (p : String → Option ℝ) (m : TrussModel) (line : String) :
    Except TrussModel (TrussModel × List String) :=
  let t := pyStrip line
  if startsHash t || t == "" then .ok (m, [])
  else
    let parts := pySplit t
    let kw := pyLower (pyStrip (parts.getD 0 ""))
    if kw == "title" then
      match parts with
      | _ :: f1 :: _ => .ok ({ m with title := some (stripQuotes (pyStrip f1)) }, [])
      | _ => .error m
    else if kw == "material" then
      match parts.drop 1 with
      | [s1, s2, s3] =>
        match p s1, p s2, p s3 with
        | some a, some b, some c =>
          .ok ({ m with material := ⟨some a, some b, some c, none⟩ }, [])
        | _, _, _ => .ok (m, [parseDiag line])
      | _ => .ok (m, [parseDiag line])
    else if kw == "static_factor" then
      match parts with
      | _ :: s1 :: _ =>
        match p s1 with
        | some f => .ok ({ m with material := { m.material with staticFactor := some f } }, [])
        | none => .ok (m, [parseDiag line])
      | _ => .error m
    else if kw == "node" then
      match parts with
      | _ :: f1 :: rest =>
        match rest with
        | [s2, s3] =>
          match p s2, p s3 with
          | some x, some y =>
            if hasNode m (pyStrip f1) then .ok (m, [])
            else .ok ({ m with nodes := m.nodes ++ [⟨pyStrip f1, ⟨x, y, 0⟩⟩] }, [])
          | _, _ => .ok (m, [parseDiag line])
        | _ => .ok (m, [parseDiag line])
      | _ => .error m
    else if kw == "link" then
      match parts with
      | _ :: f1 :: f2 :: f3 :: _ =>
        .ok ({ m with links := m.links ++ [mkLink f1 (pyStrip f2) (pyStrip f3) none none] }, [])
      | _ => .error m
    else .ok (m, [])

/-- Accumulates the diagnostics of one line in front of the result of the
remaining lines. -/
def stepDiags (ds : List String) (r : Except TrussModel (TrussModel × List String)) :
    Except TrussModel (TrussModel × List String) :=
  match r with
  | .error m => .error m
  | .ok (m, ds') => .ok (m, ds ++ ds')

/-- Embeds the line-processing loop of `TrussController.ImportFromFile`. -/
def processLines (p : String → Option ℝ) : TrussModel → List String →
    Except TrussModel (TrussModel × List String)
  | m, [] => .ok (m, [])
  | m, line :: rest =>
    match processLine p m line with
    | .error m' => .error m'
    | .ok (m', ds) => stepDiags ds (processLines p m' rest)

/-- The diagnostic printed by `ImportFromFile` when the path is missing. -/
def fileDiag : String := "Invalid file path provided or file does not exist"

/-- Embeds `TrussController.ImportFromFile` up to the derivation pass: `none`
contents model a missing/unreadable file (the function returns with the model
untouched and no line processed); otherwise every line is processed and then
`calcLinkVals` runs.  The subsequent `displayReport`/`drawTruss` calls belong
to the view and are embedded separately. -/
noncomputable def importFromFile (p : String → Option ℝ) (contents : Option (List String))
    (m : TrussModel) : Except TrussModel (TrussModel × List String) :=
  match contents with
  | none => .ok (m, [fileDiag])
  | some lines =>
    match processLines p m lines with
    | .error m' => .error m'
    | .ok (m', ds) => .ok (calcLinkVals m', ds)

/-- Python `'{}'.format(...)` of an optional string: `None` prints as "None". -/
def pyStr : Option String → String
  | none => "None"
  | some s => s

/-- Embeds the link loop of `TrussView.displayReport` over a parameter
`fmt : ℝ → String` abstracting `'{:0.2f}'` formatting.  The running `longest`
starts as `None`; each iteration first evaluates
`longest is None or l.length > longest.length` (comparing `None` with `>`
raises `TypeError`, modelled as `none`), then formats the row (formatting a
`None` length or angle with `{:0.2f}` also raises, modelled as `none`). -/
noncomputable def reportLoop (fmt : ℝ → String) :
    List Link → String → Option Link → Option (String × Option Link)
  | [], st, longest => some (st, longest)
  | l :: ls, st, longest =>
    let upd : Option Link :=
      match longest with
      | none => some l
      | some lo =>
        match l.length, lo.length with
        | some a, some b => some (if b < a then l else lo)
        | _, _ => none
    match upd with
    | none => none
    | some lg =>
      match l.length, l.angleRad with
      | some len, some ang =>
        reportLoop fmt ls
          (st ++ l.name ++ "\t" ++ l.node1_Name ++ "\t" ++ l.node2_Name ++ "\t"
            ++ fmt len ++ "\t" ++ fmt ang ++ "\n")
          (some lg)
      | _, _ => none

/-- The header built by the first eight statements of
`TrussView.displayReport`. -/
noncomputable def reportHeader (fmt : ℝ → String) (title : Option String)
    (sf uts ys e : ℝ) : String :=
  "\tTruss Design Report\n"
    ++ "Title:  " ++ pyStr title ++ "\n"
    ++ "Static Factor of Safety:  " ++ fmt sf ++ "\n"
    ++ "Ultimate Strength:  " ++ fmt uts ++ "\n"
    ++ "Yield Strength:  " ++ fmt ys ++ "\n"
    ++ "Modulus of Elasticity:  " ++ fmt e ++ "\n"
    ++ "_____________Link Summary________________\n"
    ++ "Link\t(1)\t(2)\tLength\tAngle\n"

/-- Embeds `TrussView.displayReport`: formats the material header (formatting
an unset scalar with `{:0.2f}` raises `TypeError`, modelled as `none`), runs
the link loop, and finally reads `longest.name` (an `AttributeError` when
`longest` is still `None`, modelled as `none`).  On success it returns the
report text together with the link written into the longest-link widgets. -/
noncomputable def displayReport (fmt : ℝ → String) (m : TrussModel) :
    Option (String × Link) :=
  match m.material.staticFactor with
  | none => none
  | some sf =>
    match m.material.uts with
    | none => none
    | some uts =>
      match m.material.ys with
      | none => none
      | some ys =>
        match m.material.E with
        | none => none
        | some e =>
          match reportLoop fmt m.links (reportHeader fmt m.title sf uts ys e) none with
          | some (st', some lo) => some (st', lo)
          | _ => none

/-- The node name added by a line, mirroring the `node` branch of
`processLine`: the stripped second field of a recognized `node` line whose two
coordinate fields both parse. -/
def nodeNameOf (p : String → Option ℝ) (line : String) : Option String :=
  let t := pyStrip line
  if startsHash t || t == "" then none
  else
    let parts := pySplit t
    let kw := pyLower (pyStrip (parts.getD 0 ""))
    if kw == "node" then
      match parts with
      | _ :: f1 :: [s2, s3] =>
        match p s2, p s3 with
        | some _, some _ => some (pyStrip f1)
        | _, _ => none
      | _ => none
    else none

/-- Insertion into a list of node names as the controller performs it: skip
when present, append when new. -/
def insertNodeName (names : List String) : Option String → List String
  | none => names
  | some nm => if nm ∈ names then names else names ++ [nm]

/-- A recognized directive line one of whose numeric fields fails to parse:
the situation covered by the `except ValueError` branch of the import loop. -/
def lineNumParseFails (p : String → Option ℝ) (line : String) : Prop :=
  startsHash (pyStrip line) = false ∧ pyStrip line ≠ "" ∧
  ((pyLower (pyStrip ((pySplit (pyStrip line)).getD 0 "")) = "material" ∧
      ∃ s ∈ (pySplit (pyStrip line)).drop 1, p s = none) ∨
   (∃ f0 s1 rest, pySplit (pyStrip line) = f0 :: s1 :: rest ∧
      pyLower (pyStrip f0) = "static_factor" ∧ p s1 = none) ∨
   (pyLower (pyStrip ((pySplit (pyStrip line)).getD 0 "")) = "node" ∧
      ∃ f0 f1 rest, pySplit (pyStrip line) = f0 :: f1 :: rest ∧
        ∃ s ∈ rest, p s = none))

lemma hasNode_iff (m : TrussModel) (nm : String) :
    hasNode m nm = true ↔ nm ∈ m.nodes.map Node.name := by
  simp only [hasNode, List.any_eq_true, beq_iff_eq, List.mem_map]

lemma getNode_isSome (m : TrussModel) (nm : String) :
    (getNode m nm).isSome = hasNode m nm := by
  rw [Bool.eq_iff_iff]
  simp [getNode, hasNode, List.find?_isSome, List.any_eq_true]

lemma processLine_nodeNames (p : String → Option ℝ) (m : TrussModel) (line : String)
    (m' : TrussModel) (ds : List String)
    (h : processLine p m line = .ok (m', ds)) :
    m'.nodes.map Node.name = insertNodeName (m.nodes.map Node.name) (nodeNameOf p line) := by
  simp only [processLine] at h
  repeat' split at h
  all_goals try (cases h)
  all_goals try (simp_all [nodeNameOf, insertNodeName, hasNode_iff])
  all_goals (split <;> try simp_all)
  all_goals tauto

lemma processLine_links (p : String → Option ℝ) (m : TrussModel) (line : String)
    (m' : TrussModel) (ds : List String)
    (h : processLine p m line = .ok (m', ds)) :
    m'.links = m.links ∨ ∃ f1 n1 n2, m'.links = m.links ++ [mkLink f1 n1 n2 none none] := by
  simp only [processLine] at h
  repeat' split at h
  all_goals first
    | (cases h; exact Or.inl rfl)
    | (cases h; exact Or.inr ⟨_, _, _, rfl⟩)
    | simp_all

lemma stepDiags_map_fst (ds : List String) (r : Except TrussModel (TrussModel × List String)) :
    (stepDiags ds r).map Prod.fst = r.map Prod.fst := by
  cases r with
  | error m => rfl
  | ok x => cases x; rfl

lemma processLines_nodeNames (p : String → Option ℝ) :
    ∀ (lines : List String) (m m' : TrussModel) (ds : List String),
      processLines p m lines = .ok (m', ds) →
      m'.nodes.map Node.name =
        (lines.filterMap (nodeNameOf p)).foldl
          (fun acc nm => insertNodeName acc (some nm)) (m.nodes.map Node.name) := by
  intro lines
  induction lines with
  | nil =>
    intro m m' ds h
    simp only [processLines] at h
    cases h
    rfl
  | cons line rest ih =>
    intro m m' ds h
    simp only [processLines] at h
    cases hpl : processLine p m line with
    | error e => rw [hpl] at h; cases h
    | ok x =>
      obtain ⟨m1, ds1⟩ := x
      rw [hpl] at h
      change stepDiags ds1 (processLines p m1 rest) = Except.ok (m', ds) at h
      cases hrest : processLines p m1 rest with
      | error e => rw [hrest] at h; simp [stepDiags] at h
      | ok y =>
        obtain ⟨m2, ds2⟩ := y
        rw [hrest] at h
        simp only [stepDiags, Except.ok.injEq, Prod.mk.injEq] at h
        obtain ⟨hm, _⟩ := h
        have h1 := processLine_nodeNames p m line m1 ds1 hpl
        have h2 := ih m1 m2 ds2 hrest
        rw [← hm, List.filterMap_cons]
        cases hno : nodeNameOf p line with
        | none =>
          rw [hno] at h1
          simp only [insertNodeName] at h1
          rw [h2, h1]
        | some nm =>
          rw [hno] at h1
          rw [List.foldl_cons, h2, h1]

lemma insertFold_nodup_toFinset :
    ∀ (l : List String) (acc : List String), acc.Nodup →
      (l.foldl (fun a nm => insertNodeName a (some nm)) acc).Nodup ∧
      (l.foldl (fun a nm => insertNodeName a (some nm)) acc).toFinset = acc.toFinset ∪ l.toFinset
  | [], acc, h => ⟨h, by simp⟩
  | nm :: l, acc, h => by
    rw [List.foldl_cons]
    have hacc : (insertNodeName acc (some nm)).Nodup := by
      by_cases hmem : nm ∈ acc
      · simpa [insertNodeName, hmem] using h
      · simp only [insertNodeName, hmem, ite_false]
        rw [List.nodup_append]
        refine ⟨h, List.nodup_singleton nm, ?_⟩
        intro a ha hb
        have : a = nm := by simpa using hb
        exact hmem (this ▸ ha)
    obtain ⟨hn, hf⟩ := insertFold_nodup_toFinset l (insertNodeName acc (some nm)) hacc
    refine ⟨hn, ?_⟩
    rw [hf]
    by_cases hmem : nm ∈ acc
    · simp only [insertNodeName, hmem, ite_true, List.toFinset_cons]
      ext a
      simp only [Finset.mem_union, List.mem_toFinset, Finset.mem_insert]
      constructor
      · rintro (ha | ha)
        · exact Or.inl ha
        · exact Or.inr (Or.inr ha)
      · rintro (ha | ha | ha)
        · exact Or.inl ha
        · exact Or.inl (ha ▸ hmem)
        · exact Or.inr ha
    · ext a
      simp [insertNodeName, hmem] <;> tauto

/-- Claim C3: a `node` line whose (stripped) name is already stored leaves the
node list unchanged, whatever its coordinate values, with no diagnostic; and
after a successful import from the empty model the node count equals the
number of distinct node names among the well-formed `node` lines. -/
theorem claim_C3_node_dedup :
    (∀ (p : String → Option ℝ) (m : TrussModel) (line f0 f1 s2 s3 : String) (x y : ℝ),
      startsHash (pyStrip line) = false → pyStrip line ≠ "" →
      pySplit (pyStrip line) = [f0, f1, s2, s3] →
      pyLower (pyStrip f0) = "node" →
      p s2 = some x → p s3 = some y →
      hasNode m (pyStrip f1) = true →
      processLine p m line = .ok (m, [])) ∧
    (∀ (p : String → Option ℝ) (lines : List String) (m' : TrussModel) (ds : List String),
      processLines p emptyTruss lines = .ok (m', ds) →
      m'.nodes.length = (lines.filterMap (nodeNameOf p)).toFinset.card) := by
  constructor
  · intro p m line f0 f1 s2 s3 x y hns hne hsplit hkw hp2 hp3 hdup
    have hbne : (pyStrip line == "") = false := by simpa using hne
    simp [processLine, hsplit, hns, hbne, hkw, hp2, hp3, hdup]
  · intro p lines m' ds h
    have h1 := processLines_nodeNames p lines emptyTruss m' ds h
    have h2 := insertFold_nodup_toFinset (lines.filterMap (nodeNameOf p)) [] List.nodup_nil
    have hlen : m'.nodes.length = (m'.nodes.map Node.name).length := (List.length_map _ _).symm
    rw [hlen, h1]
    show (List.foldl _ ([] : List String) _).length = _
    rw [← List.toFinset_card_of_nodup h2.1, h2.2]
    simp

/-- A concrete parser for witnesses: every field parses to 1.0. -/
def pAll : String → Option ℝ := fun _ => some 1

/-- A concrete parser for witnesses: the field " x" fails to parse, every
other field parses to 1.0. -/
def pBad : String → Option ℝ := fun s => if s == " x" then none else some 1

/-- Witness for C3: importing three node lines where the second repeats the
name "A" yields two nodes, the number of distinct names. -/
theorem claim_C3_witness :
    (TrussModel.mk none [] [⟨"A", ⟨1, 1, 0⟩⟩, ⟨"B", ⟨1, 1, 0⟩⟩] ⟨none, none, none, none⟩).nodes.length =
      ((["node, A, 0, 0", "node, A, 3, 4", "node, B, 1, 1"].filterMap (nodeNameOf pAll)).toFinset.card) :=
  claim_C3_node_dedup.2 pAll ["node, A, 0, 0", "node, A, 3, 4", "node, B, 1, 1"]
    (TrussModel.mk none [] [⟨"A", ⟨1, 1, 0⟩⟩, ⟨"B", ⟨1, 1, 0⟩⟩] ⟨none, none, none, none⟩) [] rfl

/-- Claim C5: a well-formed `material` line replaces the model's entire
Material with one built only from the three parsed scalars — any previously
set static safety factor is unset afterwards — while a `static_factor` line
mutates the current Material in place, preserving its other fields. -/
theorem claim_C5_material_replace :
    (∀ (p : String → Option ℝ) (m : TrussModel) (line f0 s1 s2 s3 : String) (a b c : ℝ),
      startsHash (pyStrip line) = false → pyStrip line ≠ "" →
      pySplit (pyStrip line) = [f0, s1, s2, s3] →
      pyLower (pyStrip f0) = "material" →
      p s1 = some a → p s2 = some b → p s3 = some c →
      processLine p m line = .ok ({ m with material := ⟨some a, some b, some c, none⟩ }, [])) ∧
    (∀ (p : String → Option ℝ) (m : TrussModel) (line f0 s1 : String) (rest : List String) (f : ℝ),
      startsHash (pyStrip line) = false → pyStrip line ≠ "" →
      pySplit (pyStrip line) = f0 :: s1 :: rest →
      pyLower (pyStrip f0) = "static_factor" →
      p s1 = some f →
      processLine p m line =
        .ok ({ m with material := { m.material with staticFactor := some f } }, [])) := by
  constructor
  · intro p m line f0 s1 s2 s3 a b c hns hne hsplit hkw hp1 hp2 hp3
    have hbne : (pyStrip line == "") = false := by simpa using hne
    simp [processLine, hsplit, hns, hbne, hkw, hp1, hp2, hp3]
  · intro p m line f0 s1 rest f hns hne hsplit hkw hp1
    have hbne : (pyStrip line == "") = false := by simpa using hne
    simp [processLine, hsplit, hns, hbne, hkw, hp1]

/-- Witness for C5 at a concrete material line processed on the empty model. -/
theorem claim_C5_witness :
    processLine pAll emptyTruss "material, 1, 2, 3" =
      .ok ({ emptyTruss with material := ⟨some 1, some 1, some 1, none⟩ }, []) :=
  claim_C5_material_replace.1 pAll emptyTruss "material, 1, 2, 3" "material" " 1" " 2" " 3"
    1 1 1 rfl (by decide) rfl rfl rfl rfl rfl

/-- Claim C6: a recognized directive line with a failing numeric field only
loses that line's effect (the model is untouched and one diagnostic is
recorded); the lines after it are still processed, so the model outcome of the
whole import equals the outcome with the malformed line removed; a file-level
access failure returns with the model unmutated and no line processed. -/
theorem claim_C6_line_isolation :
    (∀ (p : String → Option ℝ) (m : TrussModel) (line : String),
      lineNumParseFails p line → processLine p m line = .ok (m, [parseDiag line])) ∧
    (∀ (p : String → Option ℝ) (line : String), lineNumParseFails p line →
      ∀ (pre post : List String) (m : TrussModel),
      (processLines p m (pre ++ line :: post)).map Prod.fst =
        (processLines p m (pre ++ post)).map Prod.fst) ∧
    (∀ (p : String → Option ℝ) (m : TrussModel),
      importFromFile p none m = .ok (m, [fileDiag])) := by
  have ha : ∀ (p : String → Option ℝ) (m : TrussModel) (line : String),
      lineNumParseFails p line → processLine p m line = .ok (m, [parseDiag line]) := by
    intro p m line hf
    obtain ⟨hns, hne, hcase⟩ := hf
    have hbne : (pyStrip line == "") = false := by simpa using hne
    rcases hcase with ⟨hkw, s, hs, hps⟩ | ⟨f0, s1, rest, hsplit, hkw, hps⟩ |
      ⟨hkw, f0, f1, rest, hsplit, s, hs, hps⟩
    · rcases hp : pySplit (pyStrip line) with _ | ⟨f0, tail⟩
      · rw [hp] at hs
        simp at hs
      · rw [hp] at hkw hs
        simp only [List.getD_cons_zero] at hkw
        simp only [List.drop_succ_cons, List.drop_zero] at hs
        rcases tail with _ | ⟨s1, tail1⟩
        · simp at hs
        rcases tail1 with _ | ⟨s2, tail2⟩
        · simp_all [processLine, hp, hns, hbne, hkw]
        rcases tail2 with _ | ⟨s3, tail3⟩
        · simp_all [processLine, hp, hns, hbne, hkw]
        rcases tail3 with _ | ⟨s4, tail4⟩
        · simp only [List.mem_cons, List.not_mem_nil, or_false] at hs
          cases hp1 : p s1 <;> cases hp2 : p s2 <;> cases hp3 : p s3 <;>
            rcases hs with rfl | rfl | rfl <;>
              simp_all [processLine, hp, hns, hbne, hkw]
        · simp_all [processLine, hp, hns, hbne, hkw]
    · simp_all [processLine, hsplit, hns, hbne, hkw]
    · rw [hsplit] at hkw
      simp only [List.getD_cons_zero] at hkw
      rcases rest with _ | ⟨s2, rest2⟩
      · simp at hs
      rcases rest2 with _ | ⟨s3, rest3⟩
      · simp_all [processLine, hsplit, hns, hbne, hkw]
      rcases rest3 with _ | ⟨s4, rest4⟩
      · simp only [List.mem_cons, List.not_mem_nil, or_false] at hs
        cases hp1 : p s2 <;> cases hp2 : p s3 <;>
          rcases hs with rfl | rfl <;>
            simp_all [processLine, hsplit, hns, hbne, hkw]
      · simp_all [processLine, hsplit, hns, hbne, hkw]
  refine ⟨ha, ?_, ?_⟩
  · intro p line hf pre post
    induction pre with
    | nil =>
      intro m
      simp only [List.nil_append, processLines]
      rw [ha p m line hf]
      change (stepDiags [parseDiag line] (processLines p m post)).map Prod.fst = _
      rw [stepDiags_map_fst]
    | cons a pre' ih =>
      intro m
      simp only [List.cons_append, processLines]
      cases hpl : processLine p m a with
      | error e => rfl
      | ok x =>
        obtain ⟨m1, ds1⟩ := x
        change (stepDiags ds1 (processLines p m1 (pre' ++ line :: post))).map Prod.fst =
          (stepDiags ds1 (processLines p m1 (pre' ++ post))).map Prod.fst
        rw [stepDiags_map_fst, stepDiags_map_fst]
        exact ih m1
  · intro p m
    rfl

/-- Witness for C6: a node line whose x field fails to parse, between two
well-formed node lines, yields the same model outcome as the input without it. -/
theorem claim_C6_witness :
    (processLines pBad emptyTruss
        (["node, A, 1, 1"] ++ "node, B, x, 1" :: ["node, C, 1, 1"])).map Prod.fst =
      (processLines pBad emptyTruss (["node, A, 1, 1"] ++ ["node, C, 1, 1"])).map Prod.fst :=
  claim_C6_line_isolation.2.1 pBad "node, B, x, 1"
    ⟨rfl, by decide,
      Or.inr (Or.inr ⟨rfl, "node", " B", [" x", " 1"], rfl, " x", List.mem_cons_self _ _, rfl⟩)⟩
    ["node, A, 1, 1"] ["node, C, 1, 1"] emptyTruss

/-- Claim C4: a well-formed `link` line appends a link unconditionally — for
every model, whatever its node list — with no existence check on the
referenced names; the derivation pass processes every link without failing
(the link count is preserved) and sets length and angle exactly when both
node-name references resolve, leaving the link unchanged (length and angle
still unset) when either reference fails to resolve. -/
theorem claim_C4_link_handling :
    (∀ (p : String → Option ℝ) (m : TrussModel) (line f0 f1 f2 f3 : String) (rest : List String),
      startsHash (pyStrip line) = false → pyStrip line ≠ "" →
      pySplit (pyStrip line) = f0 :: f1 :: f2 :: f3 :: rest →
      pyLower (pyStrip f0) = "link" →
      processLine p m line =
        .ok ({ m with links := m.links ++ [mkLink f1 (pyStrip f2) (pyStrip f3) none none] }, [])) ∧
    (∀ m : TrussModel, (calcLinkVals m).links.length = m.links.length) ∧
    (∀ (m : TrussModel) (i : ℕ) (l : Link), m.links[i]? = some l →
      ((∃ a b, getNode m l.node1_Name = some a ∧ getNode m l.node2_Name = some b ∧
          (calcLinkVals m).links[i]? = some { l with
            length := some (Position.sub b.position a.position).mag,
            angleRad := some (Position.sub b.position a.position).getAngleRad }) ∨
       ((getNode m l.node1_Name = none ∨ getNode m l.node2_Name = none) ∧
          (calcLinkVals m).links[i]? = some l))) := by
  refine ⟨?_, ?_, ?_⟩
  · intro p m line f0 f1 f2 f3 rest hns hne hsplit hkw
    have hbne : (pyStrip line == "") = false := by simpa using hne
    simp [processLine, hsplit, hns, hbne, hkw]
  · intro m
    simp [calcLinkVals]
  · intro m i l hl
    have hget : (calcLinkVals m).links[i]? = (m.links[i]?).map (fun l =>
        let n1 : Option Node := if hasNode m l.node1_Name then getNode m l.node1_Name else none
        let n2 : Option Node := if hasNode m l.node2_Name then getNode m l.node2_Name else none
        match n1, n2 with
        | some a, some b =>
          let r := Position.sub b.position a.position
          { l with length := some r.mag, angleRad := some r.getAngleRad }
        | _, _ => l) := by
      rw [show (calcLinkVals m).links = List.map _ m.links from rfl, List.getElem?_map]
    rw [hl] at hget
    cases hn1 : getNode m l.node1_Name with
    | none =>
      have hh1 : hasNode m l.node1_Name = false := by rw [← getNode_isSome, hn1]; rfl
      refine Or.inr ⟨Or.inl rfl, ?_⟩
      rw [hget]
      simp [hh1, hn1]
    | some a =>
      have hh1 : hasNode m l.node1_Name = true := by rw [← getNode_isSome, hn1]; rfl
      cases hn2 : getNode m l.node2_Name with
      | none =>
        have hh2 : hasNode m l.node2_Name = false := by rw [← getNode_isSome, hn2]; rfl
        refine Or.inr ⟨Or.inr rfl, ?_⟩
        rw [hget]
        simp [hh1, hh2, hn1, hn2]
      | some b =>
        have hh2 : hasNode m l.node2_Name = true := by rw [← getNode_isSome, hn2]; rfl
        refine Or.inl ⟨a, b, rfl, rfl, ?_⟩
        rw [hget]
        simp [hh1, hh2, hn1, hn2]

/-- A concrete two-node model with one resolvable link, for witnesses. -/
def link4 : Link := Link.mk "" "A" "B" none none

/-- A concrete model used by witnesses: nodes A and B and one link A-B. -/
def truss4 : TrussModel :=
  TrussModel.mk none [link4] [Node.mk "A" ⟨0, 0, 0⟩, Node.mk "B" ⟨3, 4, 0⟩]
    ⟨none, none, none, none⟩

/-- Witness for C4: a concrete link line is appended unconditionally on the
empty model, which has no nodes at all. -/
theorem claim_C4_witness :
    processLine pAll emptyTruss "link, L1, A, B" =
      .ok ({ emptyTruss with
        links := emptyTruss.links ++ [mkLink " L1" (pyStrip " A") (pyStrip " B") none none] }, []) :=
  claim_C4_link_handling.1 pAll emptyTruss "link, L1, A, B" "link" " L1" " A" " B" []
    rfl (by decide) rfl rfl

lemma reportLoop_spec (fmt : ℝ → String) :
    ∀ (ls : List Link) (st : String) (cur : Link) (cl : ℝ) (st' : String) (res : Option Link),
      cur.length = some cl →
      reportLoop fmt ls st (some cur) = some (st', res) →
      ∃ lo, res = some lo ∧
        ((lo = cur ∧ ∀ l ∈ ls, ∃ a, l.length = some a ∧ a ≤ cl) ∨
         (∃ pre post lol, ls = pre ++ lo :: post ∧ lo.length = some lol ∧ cl < lol ∧
            (∀ l ∈ pre, ∃ a, l.length = some a ∧ a < lol) ∧
            (∀ l ∈ post, ∃ a, l.length = some a ∧ a ≤ lol))) := by
  intro ls
  induction ls with
  | nil =>
    intro st cur cl st' res hcl h
    simp only [reportLoop, Option.some.injEq, Prod.mk.injEq] at h
    exact ⟨cur, h.2.symm, Or.inl ⟨rfl, by simp⟩⟩
  | cons l ls ih =>
    intro st cur cl st' res hcl h
    simp only [reportLoop] at h
    rw [hcl] at h
    cases hll : l.length with
    | none =>
      rw [hll] at h
      simp at h
    | some a =>
      rw [hll] at h
      cases hla : l.angleRad with
      | none =>
        rw [hla] at h
        simp at h
      | some ang =>
        rw [hla] at h
        change reportLoop fmt ls
          (st ++ l.name ++ "\t" ++ l.node1_Name ++ "\t" ++ l.node2_Name ++ "\t"
            ++ fmt a ++ "\t" ++ fmt ang ++ "\n") (some (if cl < a then l else cur))
          = some (st', res) at h
        by_cases hcmp : cl < a
        · rw [if_pos hcmp] at h
          obtain ⟨lo, hres, hcase⟩ := ih _ l a _ _ hll h
          refine ⟨lo, hres, Or.inr ?_⟩
          rcases hcase with ⟨hlo, hall⟩ | ⟨pre, post, lol, hdec, hlol, hlt, hpre, hpost⟩
          · subst hlo
            exact ⟨[], ls, a, rfl, hll, hcmp, by simp, hall⟩
          · refine ⟨l :: pre, post, lol, by rw [hdec]; rfl, hlol, lt_trans hcmp hlt, ?_, hpost⟩
            intro l' hl'
            rcases List.mem_cons.mp hl' with rfl | hl'
            · exact ⟨a, hll, hlt⟩
            · exact hpre l' hl'
        · rw [if_neg hcmp] at h
          obtain ⟨lo, hres, hcase⟩ := ih _ cur cl _ _ hcl h
          refine ⟨lo, hres, ?_⟩
          rcases hcase with ⟨hlo, hall⟩ | ⟨pre, post, lol, hdec, hlol, hlt, hpre, hpost⟩
          · refine Or.inl ⟨hlo, ?_⟩
            intro l' hl'
            rcases List.mem_cons.mp hl' with rfl | hl'
            · exact ⟨a, hll, not_lt.mp hcmp⟩
            · exact hall l' hl'
          · refine Or.inr ⟨l :: pre, post, lol, by rw [hdec]; rfl, hlol, hlt, ?_, hpost⟩
            intro l' hl'
            rcases List.mem_cons.mp hl' with rfl | hl'
            · exact ⟨a, hll, lt_of_le_of_lt (not_lt.mp hcmp) hlt⟩
            · exact hpre l' hl'

lemma displayReport_spec (fmt : ℝ → String) (m : TrussModel) (st : String) (lo : Link)
    (h : displayReport fmt m = some (st, lo)) :
    ∃ pre post b, m.links = pre ++ lo :: post ∧ lo.length = some b ∧
      (∀ l ∈ pre, ∃ a, l.length = some a ∧ a < b) ∧
      (∀ l ∈ post, ∃ a, l.length = some a ∧ a ≤ b) := by
  unfold displayReport at h
  cases hsf : m.material.staticFactor with
  | none => rw [hsf] at h; simp at h
  | some sf =>
  rw [hsf] at h
  cases huts : m.material.uts with
  | none => rw [huts] at h; simp at h
  | some uts =>
  rw [huts] at h
  cases hys : m.material.ys with
  | none => rw [hys] at h; simp at h
  | some ys =>
  rw [hys] at h
  cases he : m.material.E with
  | none => rw [he] at h; simp at h
  | some e =>
  rw [he] at h
  simp only at h
  cases hrl : reportLoop fmt m.links (reportHeader fmt m.title sf uts ys e) none with
  | none => rw [hrl] at h; simp at h
  | some x =>
  obtain ⟨st1, res⟩ := x
  rw [hrl] at h
  cases res with
  | none => simp at h
  | some lo1 =>
  simp only [Option.some.injEq, Prod.mk.injEq] at h
  obtain ⟨hst, hlo⟩ := h
  cases hlinks : m.links with
  | nil =>
    rw [hlinks] at hrl
    simp only [reportLoop, Option.some.injEq, Prod.mk.injEq] at hrl
    exact absurd hrl.2 (by simp)
  | cons l ls =>
    rw [hlinks] at hrl
    simp only [reportLoop] at hrl
    cases hll : l.length with
    | none => rw [hll] at hrl; simp at hrl
    | some a =>
    rw [hll] at hrl
    cases hla : l.angleRad with
    | none => rw [hla] at hrl; simp at hrl
    | some ang =>
    rw [hla] at hrl
    change reportLoop fmt ls _ (some l) = some (st1, some lo1) at hrl
    obtain ⟨lo2, hres, hcase⟩ := reportLoop_spec fmt ls _ l a _ _ hll hrl
    have hlo2 : lo2 = lo := by
      have := hres.symm.trans (congrArg some hlo)
      exact Option.some.inj this
    subst hlo2
    rcases hcase with ⟨hlo2, hall⟩ | ⟨pre, post, lol, hdec, hlol, hlt, hpre, hpost⟩
    · subst hlo2
      exact ⟨[], ls, a, by simp, hll, by simp, hall⟩
    · refine ⟨l :: pre, post, lol, by rw [hdec]; rfl, hlol, ?_, hpost⟩
      intro l' hl'
      rcases List.mem_cons.mp hl' with rfl | hl'
      · exact ⟨a, hll, hlt⟩
      · exact hpre l' hl'

/-- Claim C1: when report generation succeeds, the link put into the
longest-link widgets occurs in the model's link list, its length is defined,
every link before it is strictly shorter and every link after it is no longer
— i.e. it is the link of maximum length, ties broken by first occurrence in
link insertion order, and a link with unset length is never selected. -/
theorem claim_C1_longest_link (fmt : ℝ → String) (m : TrussModel) (st : String) (lo : Link)
    (h : displayReport fmt m = some (st, lo)) :
    ∃ pre post b, m.links = pre ++ lo :: post ∧ lo.length = some b ∧
      (∀ l ∈ pre, ∃ a, l.length = some a ∧ a < b) ∧
      (∀ l ∈ post, ∃ a, l.length = some a ∧ a ≤ b) :=
  displayReport_spec fmt m st lo h

/-- The constant formatter used by report witnesses. -/
def fmt0 : ℝ → String := fun _ => "0.00"

/-- A concrete model whose report succeeds: material fully set, one link with
defined length and angle. -/
def truss1 : TrussModel :=
  TrussModel.mk (some "T") [Link.mk "" "A" "B" (some 5) (some 1)] []
    ⟨some 1, some 1, some 1, some 1⟩

/-- Witness for C1: on the concrete one-link model the report succeeds and the
selected link is that link. -/
theorem claim_C1_witness :
    ∃ pre post b,
      truss1.links = pre ++ (Link.mk "" "A" "B" (some 5) (some 1)) :: post ∧
      (Link.mk "" "A" "B" (some 5) (some 1)).length = some b ∧
      (∀ l ∈ pre, ∃ a, l.length = some a ∧ a < b) ∧
      (∀ l ∈ post, ∃ a, l.length = some a ∧ a ≤ b) :=
  claim_C1_longest_link fmt0 truss1
    (reportHeader fmt0 (some "T") 1 1 1 1
      ++ "" ++ "\t" ++ "A" ++ "\t" ++ "B" ++ "\t" ++ "0.00" ++ "\t" ++ "0.00" ++ "\n")
    (Link.mk "" "A" "B" (some 5) (some 1)) rfl

/-- Claim C9: when no link of the model has a defined length (in particular
when there are no links at all), report generation produces no report: the
embedded `displayReport` signals the empty state explicitly as `none`, the
model of the source's faulting access. -/
theorem claim_C9_no_links_report (fmt : ℝ → String) (m : TrussModel)
    (h : ∀ l ∈ m.links, l.length = none) :
    displayReport fmt m = none := by
  unfold displayReport
  cases hsf : m.material.staticFactor with
  | none => rfl
  | some sf =>
  simp only
  cases huts : m.material.uts with
  | none => rfl
  | some uts =>
  simp only
  cases hys : m.material.ys with
  | none => rfl
  | some ys =>
  simp only
  cases he : m.material.E with
  | none => rfl
  | some e =>
  simp only
  cases hlinks : m.links with
  | nil => simp [reportLoop]
  | cons l ls =>
    have hll : l.length = none := h l (by rw [hlinks]; exact List.mem_cons_self l ls)
    simp [reportLoop, hll]

/-- A concrete model whose only link has unset length (its second node name
resolves nowhere), with the material fully set. -/
def truss9 : TrussModel :=
  TrussModel.mk (some "T") [Link.mk "" "A" "C" none none] []
    ⟨some 1, some 1, some 1, some 1⟩

/-- Witness for C9 at the concrete model with one unset-length link. -/
theorem claim_C9_witness : displayReport fmt0 truss9 = none :=
  claim_C9_no_links_report fmt0 truss9
    (by intro l hl; rw [List.mem_singleton.mp hl])

lemma processLines_linkNames (p : String → Option ℝ) :
    ∀ (lines : List String) (m m' : TrussModel) (ds : List String),
      processLines p m lines = .ok (m', ds) →
      (∀ l ∈ m.links, l.name = "") → ∀ l ∈ m'.links, l.name = "" := by
  intro lines
  induction lines with
  | nil =>
    intro m m' ds h hall
    simp only [processLines] at h
    cases h
    exact hall
  | cons line rest ih =>
    intro m m' ds h hall
    simp only [processLines] at h
    cases hpl : processLine p m line with
    | error e => rw [hpl] at h; cases h
    | ok x =>
      obtain ⟨m1, ds1⟩ := x
      rw [hpl] at h
      change stepDiags ds1 (processLines p m1 rest) = Except.ok (m', ds) at h
      cases hrest : processLines p m1 rest with
      | error e => rw [hrest] at h; simp [stepDiags] at h
      | ok y =>
        obtain ⟨m2, ds2⟩ := y
        rw [hrest] at h
        simp only [stepDiags, Except.ok.injEq, Prod.mk.injEq] at h
        obtain ⟨hm, _⟩ := h
        have hall1 : ∀ l ∈ m1.links, l.name = "" := by
          rcases processLine_links p m line m1 ds1 hpl with heq | ⟨f1, n1, n2, heq⟩
          · rw [heq]; exact hall
          · rw [heq]
            intro l hl
            rcases List.mem_append.mp hl with hl | hl
            · exact hall l hl
            · rw [List.mem_singleton.mp hl]
              rfl
        rw [← hm]
        exact ih m1 m2 ds2 hrest hall1

lemma calcLinkVals_linkNames (m : TrussModel) (h : ∀ l ∈ m.links, l.name = "") :
    ∀ l ∈ (calcLinkVals m).links, l.name = "" := by
  intro l' hl'
  have hmap : (calcLinkVals m).links = List.map _ m.links := rfl
  rw [hmap] at hl'
  obtain ⟨l, hl, hfl⟩ := List.mem_map.mp hl'
  have hname := h l hl
  rw [← hfl]
  show (match
      (if hasNode m l.node1_Name then getNode m l.node1_Name else none),
      (if hasNode m l.node2_Name then getNode m l.node2_Name else none) with
    | some a, some b =>
      { l with length := some (Position.sub b.position a.position).mag,
               angleRad := some (Position.sub b.position a.position).getAngleRad }
    | _, _ => l).name = ""
  by_cases h1 : hasNode m l.node1_Name
  · rw [if_pos h1]
    by_cases h2 : hasNode m l.node2_Name
    · rw [if_pos h2]
      cases hg1 : getNode m l.node1_Name <;> cases hg2 : getNode m l.node2_Name <;> simp_all
    · rw [if_neg h2]
      cases hg1 : getNode m l.node1_Name <;> simp_all
  · rw [if_neg h1]
    cases hg2 : (if hasNode m l.node2_Name then getNode m l.node2_Name else none) <;> simp_all

/-- Claim C10: `Link.__init__` ignores its `name`, `length` and `angleRad`
parameters — every constructed link has name `""` and unset length and angle
— so after any import every link in the model has an empty name, and the link
reported as longest carries an empty name as well. -/
theorem claim_C10_link_name_ignored :
    (∀ (name node1 node2 : String) (length angleRad : Option ℝ),
      (mkLink name node1 node2 length angleRad).name = "" ∧
      (mkLink name node1 node2 length angleRad).length = none ∧
      (mkLink name node1 node2 length angleRad).angleRad = none) ∧
    (∀ (p : String → Option ℝ) (contents : Option (List String)) (m : TrussModel)
        (r : TrussModel × List String),
      (∀ l ∈ m.links, l.name = "") →
      importFromFile p contents m = .ok r →
      ∀ l ∈ r.1.links, l.name = "") ∧
    (∀ (fmt : ℝ → String) (m : TrussModel) (st : String) (lo : Link),
      (∀ l ∈ m.links, l.name = "") →
      displayReport fmt m = some (st, lo) → lo.name = "") := by
  refine ⟨?_, ?_, ?_⟩
  · intro name node1 node2 length angleRad
    exact ⟨rfl, rfl, rfl⟩
  · intro p contents m r hall h
    cases contents with
    | none =>
      simp only [importFromFile] at h
      cases h
      exact hall
    | some lines =>
      simp only [importFromFile] at h
      cases hpl : processLines p m lines with
      | error e => rw [hpl] at h; cases h
      | ok x =>
        obtain ⟨m1, ds1⟩ := x
        rw [hpl] at h
        cases h
        exact calcLinkVals_linkNames m1 (processLines_linkNames p lines m m1 ds1 hpl hall)
  · intro fmt m st lo hall h
    obtain ⟨pre, post, b, hdec, _, _, _⟩ := displayReport_spec fmt m st lo h
    have hmem : lo ∈ m.links := by
      rw [hdec]
      exact List.mem_append.mpr (Or.inr (List.mem_cons_self _ _))
    exact hall lo hmem

/-- Witness for C10: importing one link line (declared in the file as "L1") on
the empty model yields a model whose single link has an empty name. -/
theorem claim_C10_witness : (Link.mk "" "A" "B" none none).name = "" :=
  claim_C10_link_name_ignored.2.1 pAll (some ["link, L1, A, B"]) emptyTruss
    (TrussModel.mk none [Link.mk "" "A" "B" none none] [] ⟨none, none, none, none⟩,
      ([] : List String))
    (by intro l hl; exact absurd hl (List.not_mem_nil l)) rfl
    (Link.mk "" "A" "B" none none) (List.mem_singleton.mpr rfl)
